import Mathlib

/-!
# Verification of the chunk/extract/merge pipeline of `llm_pdf_extractor.py`

This file is a shallow embedding, in Lean 4, of the core control logic of
`LLMPDFExtractor` (file `src/llm_pdf_extractor.py`):

* Python `str` values manipulated character-wise by the chunker are embedded
  as `List Char` (Python `len`, `+`, slicing act on code points, exactly as
  `List.length` and `++` act here).  Strings that are only compared or stored
  atomically (JSON keys and leaf values) stay `String`.
* JSON values are embedded as the inductive `JVal`; a Python `dict` is an
  insertion-ordered association list `Obj`, with `dictSet`/`dictUpdate`
  mirroring `d[k] = v` / `d.update(other)`.
* Fallible calls are embedded in `Except String`: `.error e` plays the role
  of a raised exception carrying message `e`, `.ok` of a normal return.

Each definition is translated from the Python source; comments cite the
source lines.
-/

/-- A JSON value, as produced by `json.loads` in the source.  `int` stands in
for JSON numbers (no claim touches fractional values). -/
inductive JVal where
  | null
  | str (s : String)
  | int (n : Int)
  | boolean (b : Bool)
  | list (xs : List JVal)
  | dict (kvs : List (String × JVal))
  deriving BEq, Repr

/-- A JSON object / Python `dict`: insertion-ordered key-value pairs. -/
abbrev Obj := List (String × JVal)

/-- Python truthiness (`bool(v)`) for the JSON values above: `None`, `""`,
`0`, `False`, `[]` and `{}` are falsy, everything else truthy. -/
def truthy : JVal → Bool
  | .null => false
  | .str s => !(s == "")
  | .int n => !(n == 0)
  | .boolean b => b
  | .list xs => !xs.isEmpty
  | .dict kvs => !kvs.isEmpty

/-- Python `k in d` for a dict. -/
def hasKey (d : Obj) (k : String) : Bool :=
  d.any (fun p => p.1 == k)

/-- Python `d[k]` for a dict, as an `Option` (`none` = `KeyError`). -/
def getKey (d : Obj) (k : String) : Option JVal :=
  (d.find? (fun p => p.1 == k)).map (fun p => p.2)

/-- Python `d[k] = v` for a dict: overwrite in place if the key exists
(keeping its position), otherwise append at the end. -/
def dictSet (d : Obj) (k : String) (v : JVal) : Obj :=
  if hasKey d k then d.map (fun p => if p.1 == k then (k, v) else p)
  else d ++ [(k, v)]

/-- Python `d.update(other)` for dicts: write every pair of `other` into `d`
in order. -/
def dictUpdate (d other : Obj) : Obj :=
  other.foldl (fun a p => dictSet a p.1 p.2) d

/-- The scalar top-level fields merged with "first truthy wins"
(source lines 179-180). -/
def scalarKeys : List String :=
  ["insurance_provider", "plan_name", "plan_type", "document_type",
   "effective_date", "state_specific"]

/-- The nested-object fields merged by `dict.update`
(source lines 185-186). -/
def nestedKeys : List String :=
  ["coverage_details", "prior_authorization", "timely_filing",
   "appeals_process", "contact_information"]

/-- The initial `merged` skeleton (source lines 158-172). -/
def initMerged : Obj :=
  [("insurance_provider", .null), ("plan_name", .null), ("plan_type", .null),
   ("document_type", .null), ("effective_date", .null),
   ("state_specific", .null), ("coverage_details", .dict []),
   ("prior_authorization", .dict []), ("timely_filing", .dict []),
   ("appeals_process", .dict []), ("key_requirements", .list []),
   ("contact_information", .dict []), ("additional_info", .list [])]

/-- One step of the scalar-field loop (source lines 179-182):
`if key in chunk_result and chunk_result[key] and not merged[key]:
merged[key] = chunk_result[key]`.  `merged[key]` always exists (the key set
of `merged` never changes), so the `getD .null` default is never taken. -/
def scalarStep (cr : Obj) (m : Obj) (k : String) : Obj :=
  match getKey cr k with
  | some v =>
      if truthy v && !truthy ((getKey m k).getD .null) then dictSet m k v
      else m
  | none => m

/-- Read a dict-valued entry of `merged`; by construction the nested keys of
`merged` always hold dicts, so the `[]` default is never taken. -/
def asDict (o : Option JVal) : Obj :=
  match o with
  | some (.dict d) => d
  | _ => []

/-- One step of the nested-object loop (source lines 185-188):
`if key in chunk_result and isinstance(chunk_result[key], dict):
merged[key].update(chunk_result[key])`. -/
def nestedStep (cr : Obj) (m : Obj) (k : String) : Obj :=
  match getKey cr k with
  | some (.dict o) => dictSet m k (.dict (dictUpdate (asDict (getKey m k)) o))
  | _ => m

/-- The `key_requirements` list merge (source lines 191-192). -/
def keyReqStep (cr : Obj) (m : Obj) : Obj :=
  match getKey cr "key_requirements" with
  | some (.list xs) =>
      match getKey m "key_requirements" with
      | some (.list ys) => dictSet m "key_requirements" (.list (ys ++ xs))
      | _ => m
  | _ => m

/-- One step of the catch-all loop (source lines 195-200): an item whose key
is not a key of `merged` and whose value is truthy is folded into
`additional_info` — lists are extended element-wise, strings are appended as
`"key: value"`, other values are ignored. -/
def addStep (m : Obj) (p : String × JVal) : Obj :=
  if !hasKey m p.1 && truthy p.2 then
    match p.2 with
    | .list xs =>
        match getKey m "additional_info" with
        | some (.list ys) => dictSet m "additional_info" (.list (ys ++ xs))
        | _ => m
    | .str s =>
        match getKey m "additional_info" with
        | some (.list ys) =>
            dictSet m "additional_info" (.list (ys ++ [.str (p.1 ++ ": " ++ s)]))
        | _ => m
    | _ => m
  else m

/-- The body of the per-chunk loop of `merge_chunk_results`
(source lines 174-200): records carrying an `"error"` key are skipped
(`continue`), the rest update `merged` in four phases. -/
def mergeOne (m : Obj) (cr : Obj) : Obj :=
  if hasKey cr "error" then m
  else
    cr.foldl addStep
      (keyReqStep cr (nestedKeys.foldl (nestedStep cr)
        (scalarKeys.foldl (scalarStep cr) m)))

/-- Final step of `merge_chunk_results` (source lines 155-206).  The
`list(set(...))` deduplication of `key_requirements` (lines 203-204) is
modelled by the deterministic first-occurrence deduplication
`List.eraseDups`; CPython's set iteration order is unspecified, but no claim
depends on the order, only on the step being a function of the accumulated
list. -/
def dedupKeyReq (merged : Obj) : Obj :=
  match getKey merged "key_requirements" with
  | some (.list xs) =>
      if !xs.isEmpty then dictSet merged "key_requirements" (.list xs.eraseDups)
      else merged
  | _ => merged

def merge_chunk_results (chunk_results : List Obj) : Obj :=
  dedupKeyReq (chunk_results.foldl mergeOne initMerged)

/-- The contribution of one chunk result to a scalar key `k`: `none` for an
error-marked record, for a missing key and for a falsy value, otherwise the
value. -/
def truthyVal (k : String) (r : Obj) : Option JVal :=
  if hasKey r "error" then none
  else
    match getKey r k with
    | some v => if truthy v then some v else none
    | none => none

/-- The first truthy value reported for scalar key `k` by a non-error chunk
result, scanning in chunk order. -/
def firstTruthy (rs : List Obj) (k : String) : Option JVal :=
  rs.findSome? (truthyVal k)

/-! ## The chunker (`chunk_text`, source lines 60-114) -/

/-- A Python `str` viewed as its sequence of characters (code points);
Python `len`, `+` and indexing act on code points exactly as `List.length`,
`++` and positions act here. -/
abbrev PyStr := List Char

/-- The page-marker token the chunker splits on (source line 75). -/
def pageMarker : PyStr := "--- Page".data

/-- Python `text.split("--- Page")` for the fixed marker above: cut the
string at every leftmost, non-overlapping occurrence of the marker, dropping
the marker itself.  Matching the eight marker characters one by one keeps
the recursion structural. -/
def splitPages : PyStr → List PyStr
  | '-' :: '-' :: '-' :: ' ' :: 'P' :: 'a' :: 'g' :: 'e' :: rest =>
      [] :: splitPages rest
  | c :: rest =>
      match splitPages rest with
      | [] => [[c]]
      | p :: ps => (c :: p) :: ps
  | [] => [[]]

/-- Joining pieces with a separator between consecutive pieces; the shape
`text.split(sep)` produces. -/
def joinSep (sep : PyStr) : List PyStr → PyStr
  | [] => []
  | [p] => p
  | p :: ps => p ++ sep ++ joinSep sep ps

/-- Python `not page.strip()` (source line 79): the piece consists of
whitespace only. -/
def isBlank (s : PyStr) : Bool := s.all Char.isWhitespace

/-- Python `page_text.split()` with no separator (source line 91): split on
whitespace runs, discarding empty pieces. -/
def pyWords (s : PyStr) : List PyStr :=
  (List.splitOnP (fun c => c.isWhitespace) s).filter (fun w => !w.isEmpty)

/-- The word-packing loop that force-splits an oversized page (source lines
92-101): greedily append `word + " "` to `temp_chunk` while the word plus
its trailing space still fits, otherwise seal `temp_chunk` (when non-empty)
and restart from the word; the final non-empty `temp_chunk` is sealed too. -/
def packWords (maxChars : Nat) : List PyStr → PyStr → List PyStr → List PyStr
  | [], temp, chunks => if !temp.isEmpty then chunks ++ [temp] else chunks
  | w :: ws, temp, chunks =>
      if temp.length + w.length + 1 ≤ maxChars then
        packWords maxChars ws (temp ++ w ++ [' ']) chunks
      else
        let chunks1 := if !temp.isEmpty then chunks ++ [temp] else chunks
        packWords maxChars ws (w ++ [' ']) chunks1

/-- Computes `page_text` for one split piece (source line 82): the marker is
re-attached to every piece other than a piece *equal in value* to the first
one — the source compares `page != pages[0]` by value, not by position. -/
def pageTextOf (first piece : PyStr) : PyStr :=
  if piece == first then piece else pageMarker ++ piece

/-- The page loop of `chunk_text` (source lines 78-108), threading the
accumulated `chunks` list and `current_chunk`. -/
def chunkLoop (maxChars : Nat) (first : PyStr) :
    List PyStr → PyStr → List PyStr → List PyStr × PyStr
  | [], cur, chunks => (chunks, cur)
  | p :: ps, cur, chunks =>
      if isBlank p then chunkLoop maxChars first ps cur chunks
      else if maxChars < (pageTextOf first p).length then
        chunkLoop maxChars first ps []
          (packWords maxChars (pyWords (pageTextOf first p)) []
            (if !cur.isEmpty then chunks ++ [cur] else chunks))
      else if cur.length + (pageTextOf first p).length ≤ maxChars then
        chunkLoop maxChars first ps (cur ++ pageTextOf first p) chunks
      else
        chunkLoop maxChars first ps (pageTextOf first p) (chunks ++ [cur])

/-- Embeds `chunk_text` (source lines 60-114). -/
def chunk_text (text : PyStr) (max_chars : Nat) : List PyStr :=
  if text.length ≤ max_chars then [text]
  else
    let pages := splitPages text
    let lastState := chunkLoop max_chars (pages.headD []) pages [] []
    if !lastState.2.isEmpty then lastState.1 ++ [lastState.2] else lastState.1

/-! ## The extraction client (`extract_chunk_to_json`, source lines 116-153) -/

/-- The outcome of one attempt of the external Groq chat-completion call
plus JSON parsing (source lines 126-144), as a function of the 1-based
attempt number: `.ok` is the parsed object, `.error` an exception message
(network error, rate limit, service error, `json.loads` failure, …). -/
abbrev Service := Nat → Except String Obj

/-- The body of `extract_chunk_to_json` (source lines 123-153): the
`try/except Exception` converts *every* exception raised by the service call
into a normal return of `{"error": str(e), "chunk": chunk_num}`.  The
codomain is `Except` so that a raised exception could propagate to the
caller — but the body never produces `.error`.  The prompt construction
(lines 120-121, 293-319) only shapes the request the abstract service
consumes and the `time.sleep(1)` pacing only affects timing; neither changes
the returned value. -/
def extract_chunk_body (svc : Service) (chunk_num : Nat) (attempt : Nat) :
    Except String Obj :=
  match svc attempt with
  | .ok result => .ok result
  | .error e => .ok [("error", .str e), ("chunk", .int chunk_num)]

/-- The `tenacity` decorator `@retry(stop=stop_after_attempt(n), ...)`
(source line 116) with its default retry condition: re-invoke the wrapped
function as long as it *raises*, up to `maxAttempts` attempts in total; the
outcome of the last attempt is returned (or re-raised) as is.  The
exponential backoff sleeps (multiplier 1, min 2, max 10) only affect timing,
not values, and are not modelled. -/
def tenacityRetry (maxAttempts : Nat) (f : Nat → Except String Obj) :
    Except String Obj :=
  go maxAttempts 1
where
  go : Nat → Nat → Except String Obj
  | 0, attempt => f attempt
  | 1, attempt => f attempt
  | n + 2, attempt =>
      match f attempt with
      | .ok r => .ok r
      | .error _ => go (n + 1) (attempt + 1)

/-- The decorated `extract_chunk_to_json` (source lines 116-153): the
three-attempt retry wrapper applied to the exception-swallowing body. -/
def extract_chunk_to_json (svc : Service) (chunk_num : Nat) :
    Except String Obj :=
  tenacityRetry 3 (extract_chunk_body svc chunk_num)

/-! ## Text extractor, per-document pipeline and batch orchestrator
(source lines 42-58, 208-252, 321-374) -/

/-- Builds the page block `f"--- Page {page_num} ---\n{text}"` (source line 50). -/
def pageBlock (num : Nat) (t : String) : String :=
  "--- Page " ++ toString num ++ " ---\n" ++ t

/-- Embeds `extract_text_from_pdf` (source lines 42-58).  `pdfplumber` is
abstracted as `pdfPages`: `none` means opening or parsing the file raised
(the `except` at lines 56-58 then returns `""`); `some ts` gives the
per-page `page.extract_text()` results, with `""` standing for an
empty/`None` extraction, which the `if text:` at line 49 skips. -/
def extract_text_from_pdf (pdfPages : String → Option (List String))
    (pdf_path : String) : String :=
  match pdfPages pdf_path with
  | none => ""
  | some ts =>
      let blocks := (List.enumFrom 1 ts).filterMap
        (fun p => if p.2 = "" then none else some (pageBlock p.1 p.2))
      String.intercalate "\n\n" blocks

/-- The external world of one run: `pdfPages` abstracts `pdfplumber` (see
`extract_text_from_pdf`); `svc path i` is the extraction service for chunk
`i` of document `path`; `getsizeMB path` abstracts
`round(os.path.getsize(path) / (1024*1024), 2)` — `none` meaning
`os.path.getsize` raised — whose numeric value is external data
(modelled as an integer; no claim touches it). -/
structure Env where
  pdfPages : String → Option (List String)
  svc : String → Nat → Service
  getsizeMB : String → Option Int

/-- Python `os.path.basename` for slash-separated paths. -/
def basename (path : String) : String := (path.splitOn "/").getLastD ""

/-- Python `os.path.splitext(...)[0]` for ordinary `name.ext` file names. -/
def splitextRoot (name : String) : String :=
  let parts := name.splitOn "."
  if parts.length ≤ 1 then name else String.intercalate "." parts.dropLast

/-- The model identifier fixed by the constructor default (source line 27). -/
def modelName : String := "llama-3.3-70b-versatile"

/-- Embeds `self.max_chars_per_chunk` (source line 40). -/
def max_chars_per_chunk : Nat := 20000

/-- Embeds `extract_to_json` (source lines 208-252) in the exception monad:
`.error` is an exception escaping the call.  Note that the document-read
failure path (lines 222-223) *returns normally* with an error-marked object
and skips the metadata block. -/
def extract_to_json (env : Env) (pdf_path : String) : Except String Obj := do
  let pdf_text := extract_text_from_pdf env.pdfPages pdf_path
  if pdf_text = "" then
    return [("error", .str "Failed to extract text from PDF"),
            ("file", .str pdf_path)]
  let result ←
    if pdf_text.length ≤ max_chars_per_chunk then
      extract_chunk_to_json (env.svc pdf_path 1) 1
    else do
      let chunks := chunk_text pdf_text.data max_chars_per_chunk
      let chunk_results ← (List.range chunks.length).mapM
        (fun i => extract_chunk_to_json (env.svc pdf_path (i + 1)) (i + 1))
      pure (merge_chunk_results chunk_results)
  match env.getsizeMB pdf_path with
  | none => .error ("getsize failed: " ++ pdf_path)
  | some sz =>
      return dictSet result "_metadata" (.dict
        [("source_file", .str (basename pdf_path)),
         ("file_size_mb", .int sz),
         ("model_used", .str modelName),
         ("extraction_method", .str
            (if max_chars_per_chunk < pdf_text.length then "groq_llm_chunked"
             else "groq_llm"))])

/-- One entry of the `results["files"]` list (source lines 347-351 and
356-361); `error = none` models the success entries, which carry no
`"error"` key. -/
structure FileEntry where
  input : String
  output : Option String
  status : String
  error : Option String
  deriving Repr, DecidableEq

/-- The `results` summary dict of `batch_process` (source lines 325-330). -/
structure BatchRun where
  total : Nat
  successful : Nat
  failed : Nat
  files : List FileEntry
  deriving Repr, DecidableEq

/-- Embeds `batch_process` (source lines 321-374).  Writing the per-document JSON
and the batch summary are external I/O, modelled as always succeeding; the
`except Exception` at line 353 catches exactly the exceptions escaping
`extract_to_json`. -/
def batch_process (env : Env) (pdf_paths : List String) (output_dir : String) :
    BatchRun :=
  pdf_paths.foldl
    (fun results pdf_path =>
      match extract_to_json env pdf_path with
      | .ok _ =>
          let output_path :=
            output_dir ++ "/" ++ splitextRoot (basename pdf_path) ++ ".json"
          { results with
              successful := results.successful + 1,
              files := results.files ++
                [⟨pdf_path, some output_path, "success", none⟩] }
      | .error e =>
          { results with
              failed := results.failed + 1,
              files := results.files ++ [⟨pdf_path, none, "failed", some e⟩] })
    { total := pdf_paths.length, successful := 0, failed := 0, files := [] }


/-! ## Spec-side comparator and concrete example inputs used by the
claim theorems -/

/-- Modelled from the spec, for comparison with the merger: the value of the
earliest chunk (in order, skipping error-marked records) that reports a
non-null value for scalar key `k` — the spec's "first non-null wins" rule,
taken literally. -/
def specFirstNonNull (rs : List Obj) (k : String) : Option JVal :=
  rs.findSome? (fun r =>
    if hasKey r "error" then none
    else
      match getKey r k with
      | some JVal.null => none
      | some v => some v
      | none => none)

/-- A service that raises a transient error on attempts 1 and 2 and
succeeds on attempt 3 — the retry-exhaustion boundary scenario. -/
def svcFailTwice : Service := fun attempt =>
  if attempt ≤ 2 then .error "Rate limit exceeded"
  else .ok [("plan_name", .str "Gold PPO")]

/-- Chunk results where chunk 1 reports an empty (falsy, non-null) value. -/
def exEmptyThenHMO : List Obj :=
  [[("plan_type", .str "")], [("plan_type", .str "HMO")]]

/-- Chunk results where chunk 1 says PPO and chunk 2 says HMO. -/
def exPPO : List Obj :=
  [[("plan_type", .str "PPO")], [("plan_type", .str "HMO")]]

/-- A chunk result carrying a deductible in `coverage_details`. -/
def covA : Obj := [("coverage_details", .dict [("deductible", .str "$500")])]

/-- A chunk result carrying a copay in `coverage_details`. -/
def covB : Obj := [("coverage_details", .dict [("copay", .str "$20")])]

/-- An error marker as produced by `extract_chunk_to_json` for chunk 2. -/
def errRec : Obj := [("error", .str "boom"), ("chunk", .int 2)]

/-- A chunk result setting only `plan_name`. -/
def planX : Obj := [("plan_name", .str "X")]

/-- Three plan-type chunk results for the associativity example. -/
def pA : Obj := [("plan_type", .str "PPO")]

def pB : Obj := [("plan_type", .str "HMO")]

def pC : Obj := [("plan_type", .str "EPO")]

/-- A chunk result with a falsy (empty-string) plan name. -/
def emptyName : Obj := [("plan_name", .str "")]

/-- A chunk result with a truthy plan name. -/
def goldName : Obj := [("plan_name", .str "Gold")]

/-- A batch world of three documents where the second one cannot be read
(its `pdfplumber` open raises), the other two read fine and every service
call succeeds. -/
def env3 : Env where
  pdfPages := fun p =>
    if p = "docs/a.pdf" then some ["hello world"]
    else if p = "docs/b.pdf" then none
    else if p = "docs/c.pdf" then some ["bye"]
    else none
  svc := fun _ _ _ => .ok [("plan_name", .str "X")]
  getsizeMB := fun _ => some 1

/-! ## Lemmas about the dict operations -/

theorem getKey_cons (p : String × JVal) (d : Obj) (k : String) :
    getKey (p :: d) k = if p.1 == k then some p.2 else getKey d k := by
  cases h : p.1 == k <;> simp [getKey, List.find?_cons, h]

theorem hasKey_cons (p : String × JVal) (d : Obj) (k : String) :
    hasKey (p :: d) k = ((p.1 == k) || hasKey d k) := by
  simp [hasKey, List.any_cons]

theorem hasKey_eq_isSome_getKey (d : Obj) (k : String) :
    hasKey d k = (getKey d k).isSome := by
  induction d with
  | nil => rfl
  | cons p d ih =>
      rw [hasKey_cons, getKey_cons]
      cases h : p.1 == k <;> simp [ih]

theorem getKey_eq_none_of_hasKey (d : Obj) (k : String) (h : hasKey d k = false) :
    getKey d k = none := by
  have := hasKey_eq_isSome_getKey d k
  rw [h] at this
  cases hg : getKey d k
  · rfl
  · rw [hg] at this; simp at this

theorem getKey_map_set_self (d : Obj) (k : String) (v : JVal) (h : hasKey d k = true) :
    getKey (d.map (fun p => if p.1 == k then (k, v) else p)) k = some v := by
  induction d with
  | nil => simp [hasKey] at h
  | cons p d ih =>
      rw [hasKey_cons] at h
      rw [List.map_cons]
      cases hp : p.1 == k
      · rw [hp] at h
        simp only [Bool.false_or] at h
        simp only [hp, Bool.false_eq_true, if_false]
        rw [getKey_cons, if_neg (by simp [hp])]
        exact ih h
      · simp only [hp, if_true]
        rw [getKey_cons, if_pos (by simp)]

theorem getKey_map_set_ne (d : Obj) (k k2 : String) (v : JVal) (h : k2 ≠ k) :
    getKey (d.map (fun p => if p.1 == k then (k, v) else p)) k2 = getKey d k2 := by
  induction d with
  | nil => rfl
  | cons p d ih =>
      rw [List.map_cons]
      cases hp : p.1 == k
      · simp only [hp, Bool.false_eq_true, if_false]
        rw [getKey_cons, getKey_cons]
        cases hp2 : p.1 == k2 <;> simp only [hp2, Bool.false_eq_true, if_false, if_true, ih]
      · simp only [hp, if_true]
        rw [getKey_cons, getKey_cons]
        have hpk : p.1 = k := by simpa [beq_iff_eq] using hp
        have hk2 : (k == k2) = false := by simp [beq_eq_false_iff_ne]; exact fun hkk => h hkk.symm
        rw [hpk]
        simp only [hk2, Bool.false_eq_true, if_false, ih]

theorem getKey_append_right (d1 d2 : Obj) (k : String) (h : hasKey d1 k = false) :
    getKey (d1 ++ d2) k = getKey d2 k := by
  induction d1 with
  | nil => rfl
  | cons p d ih =>
      rw [hasKey_cons] at h
      simp only [Bool.or_eq_false_iff] at h
      rw [List.cons_append, getKey_cons, if_neg (by simp [h.1])]
      exact ih h.2

theorem getKey_dictSet_self (d : Obj) (k : String) (v : JVal) :
    getKey (dictSet d k v) k = some v := by
  unfold dictSet
  cases hh : hasKey d k
  · rw [if_neg (by simp [hh]), getKey_append_right d _ k hh, getKey_cons, if_pos (by simp)]
  · rw [if_pos (by simp [hh])]
    exact getKey_map_set_self d k v hh

theorem getKey_dictSet_ne (d : Obj) (k k2 : String) (v : JVal) (h : k2 ≠ k) :
    getKey (dictSet d k v) k2 = getKey d k2 := by
  unfold dictSet
  cases hh : hasKey d k
  · rw [if_neg (by simp [hh])]
    cases hh2 : hasKey d k2
    · rw [getKey_append_right d _ k2 hh2, getKey_eq_none_of_hasKey d k2 hh2, getKey_cons,
          if_neg (by simp; exact fun hkk => h hkk.symm)]
      rfl
    · -- key k2 present in d: the appended pair is never reached
      induction d with
      | nil => simp [hasKey] at hh2
      | cons p d ih =>
          rw [hasKey_cons] at hh hh2
          simp only [Bool.or_eq_false_iff] at hh
          rw [List.cons_append, getKey_cons, getKey_cons]
          cases hp2 : p.1 == k2
          · rw [hp2] at hh2
            simp only [Bool.false_or] at hh2
            simp only [hp2, Bool.false_eq_true, if_false]
            exact ih hh.2 hh2
          · simp only [hp2, if_true]
  · rw [if_pos (by simp [hh])]
    exact getKey_map_set_ne d k k2 v h

theorem hasKey_dictSet (d : Obj) (k k2 : String) (v : JVal) :
    hasKey (dictSet d k v) k2 = ((k2 == k) || hasKey d k2) := by
  by_cases h : k2 = k
  · subst h
    rw [hasKey_eq_isSome_getKey, getKey_dictSet_self]
    simp
  · rw [hasKey_eq_isSome_getKey, getKey_dictSet_ne d k k2 v h, ← hasKey_eq_isSome_getKey]
    have : (k2 == k) = false := by simp [beq_eq_false_iff_ne, h]
    simp [this]

theorem hasKey_iff_mem_keys (d : Obj) (k : String) :
    hasKey d k = true ↔ k ∈ d.map Prod.fst := by
  simp [hasKey, List.any_eq_true, List.mem_map, beq_iff_eq]

theorem hasKey_dictUpdate (a b : Obj) (k : String) :
    hasKey (dictUpdate a b) k = (hasKey a k || hasKey b k) := by
  induction b generalizing a with
  | nil => simp [dictUpdate, hasKey]
  | cons p b ih =>
      show hasKey (dictUpdate (dictSet a p.1 p.2) b) k = _
      rw [ih, hasKey_dictSet, hasKey_cons]
      have hcomm : (k == p.1) = (p.1 == k) := by
        cases hk : k == p.1 <;> cases hpk : p.1 == k <;>
          simp only [beq_iff_eq, beq_eq_false_iff_ne] at hk hpk <;>
          first
          | rfl
          | exact absurd hk.symm hpk
          | exact absurd hpk.symm hk
      rw [hcomm]
      cases hasKey a k <;> cases p.1 == k <;> cases hasKey b k <;> rfl

theorem getKey_dictUpdate (a b : Obj) (k : String) (hnd : (b.map Prod.fst).Nodup) :
    getKey (dictUpdate a b) k = (getKey b k).or (getKey a k) := by
  induction b generalizing a with
  | nil => simp [dictUpdate, getKey]
  | cons p b ih =>
      rw [List.map_cons, List.nodup_cons] at hnd
      show getKey (dictUpdate (dictSet a p.1 p.2) b) k = _
      rw [ih _ hnd.2, getKey_cons]
      by_cases hk : k = p.1
      · subst hk
        have hb : hasKey b p.1 = false := by
          cases hhb : hasKey b p.1
          · rfl
          · exact absurd ((hasKey_iff_mem_keys b p.1).mp hhb) hnd.1
        rw [getKey_eq_none_of_hasKey b p.1 hb, getKey_dictSet_self, if_pos (by simp)]
        simp
      · rw [getKey_dictSet_ne a p.1 k p.2 hk,
            if_neg (by simp only [beq_iff_eq]; exact fun h => hk h.symm)]

/-! ## The scalar-merge characterisation: "first truthy wins" -/

theorem firstTruthy_cons_some (r : Obj) (rs : List Obj) (k : String) (v : JVal)
    (h : truthyVal k r = some v) : firstTruthy (r :: rs) k = some v := by
  show List.findSome? (truthyVal k) (r :: rs) = some v
  rw [List.findSome?_cons, h]

theorem firstTruthy_cons_none (r : Obj) (rs : List Obj) (k : String)
    (h : truthyVal k r = none) : firstTruthy (r :: rs) k = firstTruthy rs k := by
  show List.findSome? (truthyVal k) (r :: rs) = _
  rw [List.findSome?_cons, h]
  rfl

theorem truthy_of_truthyVal (k : String) (r : Obj) (v : JVal)
    (h : truthyVal k r = some v) : truthy v = true := by
  unfold truthyVal at h
  split at h
  · exact absurd h (by simp)
  · split at h
    · split at h
      · rename_i ht
        cases h
        exact ht
      · exact absurd h (by simp)
    · exact absurd h (by simp)

theorem truthy_of_firstTruthy (rs : List Obj) (k : String) (v : JVal)
    (h : firstTruthy rs k = some v) : truthy v = true := by
  induction rs with
  | nil => exact absurd h (by simp [firstTruthy])
  | cons r rs ih =>
      cases ht : truthyVal k r
      · rw [firstTruthy_cons_none r rs k ht] at h
        exact ih h
      · rename_i w
        rw [firstTruthy_cons_some r rs k w ht] at h
        cases h
        exact truthy_of_truthyVal k r _ ht

/-! ## Phase lemmas for `mergeOne` -/

theorem getKey_scalarStep_ne (cr m : Obj) (k k2 : String) (h : k2 ≠ k) :
    getKey (scalarStep cr m k) k2 = getKey m k2 := by
  unfold scalarStep
  split
  · split
    · exact getKey_dictSet_ne m k k2 _ h
    · rfl
  · rfl

theorem getKey_nestedStep_ne (cr m : Obj) (k k2 : String) (h : k2 ≠ k) :
    getKey (nestedStep cr m k) k2 = getKey m k2 := by
  unfold nestedStep
  split
  · exact getKey_dictSet_ne m k k2 _ h
  · rfl

theorem getKey_keyReqStep_ne (cr m : Obj) (k : String)
    (h : k ≠ "key_requirements") : getKey (keyReqStep cr m) k = getKey m k := by
  unfold keyReqStep
  split
  · split
    · exact getKey_dictSet_ne m _ k _ h
    · rfl
  · rfl

theorem getKey_addStep_ne (m : Obj) (p : String × JVal) (k : String)
    (h : k ≠ "additional_info") : getKey (addStep m p) k = getKey m k := by
  unfold addStep
  split
  · split
    · split
      · exact getKey_dictSet_ne m _ k _ h
      · rfl
    · split
      · exact getKey_dictSet_ne m _ k _ h
      · rfl
    · rfl
  · rfl

theorem getKey_foldl_scalarStep_not_mem (cr : Obj) (ks : List String) (m : Obj)
    (k : String) (h : k ∉ ks) :
    getKey (ks.foldl (scalarStep cr) m) k = getKey m k := by
  induction ks generalizing m with
  | nil => rfl
  | cons k1 ks ih =>
      rw [List.foldl_cons, ih _ (fun hk => h (List.mem_cons_of_mem k1 hk)),
          getKey_scalarStep_ne cr m k1 k
            (fun hkk => h (hkk ▸ List.mem_cons_self k1 ks))]

theorem getKey_foldl_nestedStep_not_mem (cr : Obj) (ks : List String) (m : Obj)
    (k : String) (h : k ∉ ks) :
    getKey (ks.foldl (nestedStep cr) m) k = getKey m k := by
  induction ks generalizing m with
  | nil => rfl
  | cons k1 ks ih =>
      rw [List.foldl_cons, ih _ (fun hk => h (List.mem_cons_of_mem k1 hk)),
          getKey_nestedStep_ne cr m k1 k
            (fun hkk => h (hkk ▸ List.mem_cons_self k1 ks))]

theorem getKey_foldl_addStep_ne (cr m : Obj) (k : String)
    (h : k ≠ "additional_info") :
    getKey (cr.foldl addStep m) k = getKey m k := by
  induction cr generalizing m with
  | nil => rfl
  | cons p cr ih => rw [List.foldl_cons, ih _, getKey_addStep_ne m p k h]

theorem getKey_foldl_scalarStep_mem (cr : Obj) (ks : List String)
    (hnd : ks.Nodup) (m : Obj) (k : String) (hk : k ∈ ks) :
    getKey (ks.foldl (scalarStep cr) m) k =
      match getKey cr k with
      | some v =>
          if truthy v && !truthy ((getKey m k).getD .null) then some v
          else getKey m k
      | none => getKey m k := by
  induction ks generalizing m with
  | nil => cases hk
  | cons k1 ks ih =>
      rw [List.nodup_cons] at hnd
      rw [List.foldl_cons]
      rcases List.mem_cons.mp hk with hk1 | hks
      · subst hk1
        rw [getKey_foldl_scalarStep_not_mem cr ks _ k hnd.1]
        cases hv : getKey cr k
        · simp only [scalarStep, hv]
        · rename_i v
          simp only [scalarStep, hv]
          cases hc : (truthy v && !truthy ((getKey m k).getD .null)) <;>
            simp only [hc, Bool.false_eq_true, if_false, if_true]
          exact getKey_dictSet_self m k v
      · have hne : k ≠ k1 := fun he => hnd.1 (he ▸ hks)
        rw [ih hnd.2 _ hks, getKey_scalarStep_ne cr m k1 k hne]

theorem getKey_foldl_nestedStep_mem (cr : Obj) (ks : List String)
    (hnd : ks.Nodup) (m : Obj) (k : String) (hk : k ∈ ks) :
    getKey (ks.foldl (nestedStep cr) m) k =
      match getKey cr k with
      | some (.dict o) => some (.dict (dictUpdate (asDict (getKey m k)) o))
      | _ => getKey m k := by
  induction ks generalizing m with
  | nil => cases hk
  | cons k1 ks ih =>
      rw [List.nodup_cons] at hnd
      rw [List.foldl_cons]
      rcases List.mem_cons.mp hk with hk1 | hks
      · subst hk1
        rw [getKey_foldl_nestedStep_not_mem cr ks _ k hnd.1]
        cases hv : getKey cr k
        · simp only [nestedStep, hv]
        · rename_i v
          cases v <;> simp only [nestedStep, hv]
          exact getKey_dictSet_self m k _
      · have hne : k ≠ k1 := fun he => hnd.1 (he ▸ hks)
        rw [ih hnd.2 _ hks, getKey_nestedStep_ne cr m k1 k hne]

theorem scalarKeys_nodup : scalarKeys.Nodup := by decide

theorem nestedKeys_nodup : nestedKeys.Nodup := by decide

theorem scalar_key_props (k : String) (hk : k ∈ scalarKeys) :
    k ∉ nestedKeys ∧ k ≠ "key_requirements" ∧ k ≠ "additional_info" := by
  fin_cases hk <;> exact ⟨by decide, by decide, by decide⟩

theorem nested_key_props (k : String) (hk : k ∈ nestedKeys) :
    k ∉ scalarKeys ∧ k ≠ "key_requirements" ∧ k ≠ "additional_info" := by
  fin_cases hk <;> exact ⟨by decide, by decide, by decide⟩

theorem getKey_mergeOne_other (m cr : Obj) (k : String) (h1 : k ∉ scalarKeys)
    (h2 : k ∉ nestedKeys) (h3 : k ≠ "key_requirements")
    (h4 : k ≠ "additional_info") : getKey (mergeOne m cr) k = getKey m k := by
  unfold mergeOne
  split
  · rfl
  · rw [getKey_foldl_addStep_ne _ _ _ h4, getKey_keyReqStep_ne _ _ _ h3,
        getKey_foldl_nestedStep_not_mem _ _ _ _ h2,
        getKey_foldl_scalarStep_not_mem _ _ _ _ h1]

theorem getKey_mergeOne_scalar (m cr : Obj) (k : String) (hk : k ∈ scalarKeys)
    (w : JVal) (hm : getKey m k = some w) :
    getKey (mergeOne m cr) k = some (
      if hasKey cr "error" then w
      else
        match getKey cr k with
        | some v => if truthy v && !truthy w then v else w
        | none => w) := by
  obtain ⟨hn, hkr, hai⟩ := scalar_key_props k hk
  unfold mergeOne
  cases he : hasKey cr "error"
  · simp only [Bool.false_eq_true, if_false]
    rw [getKey_foldl_addStep_ne _ _ _ hai, getKey_keyReqStep_ne _ _ _ hkr,
        getKey_foldl_nestedStep_not_mem _ _ _ _ hn,
        getKey_foldl_scalarStep_mem cr scalarKeys scalarKeys_nodup m k hk, hm]
    cases hv : getKey cr k
    · rfl
    · rename_i v
      simp only [Option.getD_some]
      by_cases hc : (truthy v && !truthy w) = true <;> simp [hc]
  · simp only [if_true]
    exact hm

theorem getKey_foldl_mergeOne_scalar (rs : List Obj) (m : Obj) (k : String)
    (hk : k ∈ scalarKeys) (w : JVal) (hm : getKey m k = some w) :
    getKey (rs.foldl mergeOne m) k =
      some (if truthy w then w else (firstTruthy rs k).getD w) := by
  induction rs generalizing m w with
  | nil =>
      simp only [List.foldl_nil, firstTruthy, List.findSome?_nil, Option.getD_none]
      rw [hm]
      cases hw : truthy w <;> simp
  | cons r rs ih =>
      rw [List.foldl_cons]
      have hstep := getKey_mergeOne_scalar m r k hk w hm
      cases he : hasKey r "error"
      case false =>
        rw [he] at hstep
        simp only [Bool.false_eq_true, if_false] at hstep
        cases hv : getKey r k
        case none =>
          rw [hv] at hstep
          rw [ih _ w hstep,
              firstTruthy_cons_none r rs k (by simp [truthyVal, he, hv])]
        case some v =>
          rw [hv] at hstep
          cases ht : truthy v
          case false =>
            simp only [ht, Bool.false_and, Bool.false_eq_true, if_false] at hstep
            rw [ih _ w hstep,
                firstTruthy_cons_none r rs k (by simp [truthyVal, he, hv, ht])]
          case true =>
            rw [firstTruthy_cons_some r rs k v (by simp [truthyVal, he, hv, ht])]
            cases hw : truthy w
            case true =>
              simp only [ht, hw, Bool.not_true, Bool.and_false,
                Bool.false_eq_true, if_false] at hstep
              rw [ih _ w hstep]
              simp [hw]
            case false =>
              simp only [ht, hw, Bool.not_false, Bool.and_true, if_true] at hstep
              rw [ih _ v hstep]
              simp [hw, ht]
      case true =>
        rw [he] at hstep
        simp only [if_true] at hstep
        rw [ih _ w hstep, firstTruthy_cons_none r rs k (by simp [truthyVal, he])]

theorem getKey_initMerged_scalar (k : String) (hk : k ∈ scalarKeys) :
    getKey initMerged k = some .null := by
  fin_cases hk <;> rfl

theorem getKey_dedupKeyReq_ne (m : Obj) (k : String)
    (h : k ≠ "key_requirements") : getKey (dedupKeyReq m) k = getKey m k := by
  unfold dedupKeyReq
  split
  · split
    · exact getKey_dictSet_ne m _ k _ h
    · rfl
  · rfl

theorem getKey_merge_scalar (rs : List Obj) (k : String) (hk : k ∈ scalarKeys) :
    getKey (merge_chunk_results rs) k = some ((firstTruthy rs k).getD .null) := by
  obtain ⟨_, hkr, _⟩ := scalar_key_props k hk
  unfold merge_chunk_results
  rw [getKey_dedupKeyReq_ne _ k hkr,
      getKey_foldl_mergeOne_scalar rs initMerged k hk .null
        (getKey_initMerged_scalar k hk)]
  simp [truthy]

theorem getKey_mergeOne_nested (m cr : Obj) (k : String) (hk : k ∈ nestedKeys)
    (d o : Obj) (hm : getKey m k = some (.dict d))
    (he : hasKey cr "error" = false) (hc : getKey cr k = some (.dict o)) :
    getKey (mergeOne m cr) k = some (.dict (dictUpdate d o)) := by
  obtain ⟨hs, hkr, hai⟩ := nested_key_props k hk
  unfold mergeOne
  simp only [he, Bool.false_eq_true, if_false]
  rw [getKey_foldl_addStep_ne _ _ _ hai, getKey_keyReqStep_ne _ _ _ hkr,
      getKey_foldl_nestedStep_mem cr nestedKeys nestedKeys_nodup _ k hk,
      getKey_foldl_scalarStep_not_mem cr scalarKeys m k hs, hc, hm]
  rfl

theorem getKey_foldl_mergeOne_other (rs : List Obj) (m : Obj) (k : String)
    (h1 : k ∉ scalarKeys) (h2 : k ∉ nestedKeys) (h3 : k ≠ "key_requirements")
    (h4 : k ≠ "additional_info") :
    getKey (rs.foldl mergeOne m) k = getKey m k := by
  induction rs generalizing m with
  | nil => rfl
  | cons r rs ih =>
      rw [List.foldl_cons, ih _, getKey_mergeOne_other m r k h1 h2 h3 h4]

theorem hasKey_merge_error (rs : List Obj) :
    hasKey (merge_chunk_results rs) "error" = false := by
  rw [hasKey_eq_isSome_getKey]
  unfold merge_chunk_results
  rw [getKey_dedupKeyReq_ne _ _ (by decide),
      getKey_foldl_mergeOne_other rs initMerged "error" (by decide) (by decide)
        (by decide) (by decide)]
  rfl

theorem truthyVal_merge (rs : List Obj) (k : String) (hk : k ∈ scalarKeys) :
    truthyVal k (merge_chunk_results rs) = firstTruthy rs k := by
  unfold truthyVal
  simp only [hasKey_merge_error rs, Bool.false_eq_true, if_false]
  rw [getKey_merge_scalar rs k hk]
  cases hf : firstTruthy rs k
  · simp [truthy]
  · rename_i v
    simp [truthy_of_firstTruthy rs k v hf]

/-! ## Lemmas about the chunker -/

theorem splitPages_ne_nil (s : PyStr) : splitPages s ≠ [] := by
  induction s using splitPages.induct with
  | case1 rest ih => simp [splitPages]
  | case2 c rest hne hnil ih => exact absurd hnil ih
  | case3 c rest hne p ps heq ih => simp [splitPages.eq_2 c rest hne, heq]
  | case4 => simp [splitPages]

theorem joinSep_cons (sep : PyStr) (p : PyStr) (ps : List PyStr)
    (h : ps ≠ []) : joinSep sep (p :: ps) = p ++ sep ++ joinSep sep ps := by
  cases ps with
  | nil => exact absurd rfl h
  | cons q qs => rfl

/-- Splitting on the page marker and re-joining with it reproduces the
text: the split loses no characters. -/
theorem joinSep_splitPages (s : PyStr) :
    joinSep pageMarker (splitPages s) = s := by
  induction s using splitPages.induct with
  | case1 rest ih =>
      rw [splitPages, joinSep_cons _ _ _ (splitPages_ne_nil rest), ih]
      rfl
  | case2 c rest hne hnil ih => exact absurd hnil (splitPages_ne_nil rest)
  | case3 c rest hne p ps heq ih =>
      rw [splitPages.eq_2 c rest hne, heq]
      rw [heq] at ih
      cases ps with
      | nil => simpa [joinSep] using ih
      | cons q qs =>
          rw [joinSep_cons _ _ _ (by simp)] at ih ⊢
          rw [← ih]
          simp
  | case4 => rfl

theorem joinSep_eq_flatten_map (sep : PyStr) (p0 : PyStr) (ps : List PyStr) :
    joinSep sep (p0 :: ps) = p0 ++ (ps.map (fun p => sep ++ p)).flatten := by
  induction ps generalizing p0 with
  | nil => simp [joinSep]
  | cons p1 ps ih =>
      rw [joinSep_cons sep p0 (p1 :: ps) (by simp), ih p1]
      simp

theorem packWords_le (maxChars : Nat) (ws : List PyStr) (temp : PyStr)
    (chunks : List PyStr) (htemp : temp.length ≤ maxChars)
    (hws : ∀ w ∈ ws, w.length + 1 ≤ maxChars)
    (hch : ∀ c ∈ chunks, c.length ≤ maxChars) :
    ∀ c ∈ packWords maxChars ws temp chunks, c.length ≤ maxChars := by
  induction ws generalizing temp chunks with
  | nil =>
      intro c hc
      unfold packWords at hc
      split at hc
      · rcases List.mem_append.mp hc with h | h
        · exact hch c h
        · rw [List.mem_singleton.mp h]; exact htemp
      · exact hch c hc
  | cons w ws ih =>
      intro c hc
      unfold packWords at hc
      split at hc
      · rename_i hfit
        refine ih _ _ ?_ (fun w2 hw2 => hws w2 (List.mem_cons_of_mem w hw2))
          hch c hc
        simp only [List.length_append, List.length_singleton]
        omega
      · refine ih _ _ ?_ (fun w2 hw2 => hws w2 (List.mem_cons_of_mem w hw2))
          ?_ c hc
        · have := hws w (List.mem_cons_self w ws)
          simp only [List.length_append, List.length_singleton]
          omega
        · intro c2 hc2
          split at hc2
          · rcases List.mem_append.mp hc2 with h | h
            · exact hch c2 h
            · rw [List.mem_singleton.mp h]; exact htemp
          · exact hch c2 hc2

theorem chunkLoop_le (maxChars : Nat) (first : PyStr) (ps : List PyStr)
    (cur : PyStr) (chunks : List PyStr) (hcur : cur.length ≤ maxChars)
    (hch : ∀ c ∈ chunks, c.length ≤ maxChars)
    (hws : ∀ p ∈ ps, maxChars < (pageTextOf first p).length →
      ∀ w ∈ pyWords (pageTextOf first p), w.length + 1 ≤ maxChars) :
    (∀ c ∈ (chunkLoop maxChars first ps cur chunks).1, c.length ≤ maxChars) ∧
      (chunkLoop maxChars first ps cur chunks).2.length ≤ maxChars := by
  induction ps generalizing cur chunks with
  | nil => exact ⟨hch, hcur⟩
  | cons p ps ih =>
      have hwstail : ∀ p2 ∈ ps, maxChars < (pageTextOf first p2).length →
          ∀ w ∈ pyWords (pageTextOf first p2), w.length + 1 ≤ maxChars :=
        fun p2 hp2 => hws p2 (List.mem_cons_of_mem p hp2)
      unfold chunkLoop
      split
      · exact ih cur chunks hcur hch hwstail
      · split
        · rename_i hblank hbig
          refine ih [] _ (by simp) ?_ hwstail
          refine packWords_le maxChars _ [] _ (by simp)
            (hws p (List.mem_cons_self p ps) hbig) ?_
          intro c2 hc2
          split at hc2
          · rcases List.mem_append.mp hc2 with h | h
            · exact hch c2 h
            · rw [List.mem_singleton.mp h]; exact hcur
          · exact hch c2 hc2
        · split
          · rename_i hblank hbig hfit
            refine ih _ chunks ?_ hch hwstail
            simpa [List.length_append] using hfit
          · rename_i hblank hbig hfit
            refine ih _ _ ?_ ?_ hwstail
            · omega
            · intro c2 hc2
              rcases List.mem_append.mp hc2 with h | h
              · exact hch c2 h
              · rw [List.mem_singleton.mp h]; exact hcur

theorem chunkLoop_flatten (maxChars : Nat) (first : PyStr) (ps : List PyStr)
    (cur : PyStr) (chunks : List PyStr)
    (hps : ∀ p ∈ ps, isBlank p = false ∧ (pageTextOf first p).length ≤ maxChars) :
    (chunkLoop maxChars first ps cur chunks).1.flatten ++
        (chunkLoop maxChars first ps cur chunks).2 =
      chunks.flatten ++ cur ++ (ps.map (pageTextOf first)).flatten := by
  induction ps generalizing cur chunks with
  | nil => simp [chunkLoop]
  | cons p ps ih =>
      obtain ⟨hb, hlen⟩ := hps p (List.mem_cons_self p ps)
      have htail : ∀ p2 ∈ ps, isBlank p2 = false ∧
          (pageTextOf first p2).length ≤ maxChars :=
        fun p2 hp2 => hps p2 (List.mem_cons_of_mem p hp2)
      unfold chunkLoop
      rw [if_neg (by simp [hb]), if_neg (by omega)]
      split
      · rw [ih _ _ htail]
        simp [List.append_assoc]
      · rw [ih _ _ htail]
        simp [List.append_assoc]

/-! ## Claim theorems -/

/-- C5 (counterexample): the claim "each scalar field is set by the earliest
chunk reporting a non-null value" fails on the code: the merge tests Python
truthiness, not non-nullness, so with chunk 1 reporting the non-null but
falsy `plan_type = ""` and chunk 2 reporting `"HMO"`, the merged value is
`"HMO"` while the earliest non-null value is `""`. -/
theorem C5_counterexample :
    getKey (merge_chunk_results exEmptyThenHMO) "plan_type" =
      some (.str "HMO") ∧
    specFirstNonNull exEmptyThenHMO "plan_type" = some (.str "") ∧
    getKey (merge_chunk_results exEmptyThenHMO) "plan_type" ≠
      specFirstNonNull exEmptyThenHMO "plan_type" := by
  refine ⟨rfl, rfl, ?_⟩
  intro h
  have h2 : (some (JVal.str "HMO") : Option JVal) = some (.str "") := h
  exact absurd (JVal.str.inj (Option.some.inj h2)) (by decide)

/-- C5 (amended): each scalar field of the merged record is the value of
the earliest chunk reporting a *truthy* (non-null and non-empty) value for
it, or null when no chunk does; in particular PPO before HMO merges to
PPO. -/
theorem C5_scalar_first_truthy_wins (rs : List Obj) (k : String)
    (hk : k ∈ scalarKeys) :
    getKey (merge_chunk_results rs) k =
      some ((firstTruthy rs k).getD .null) :=
  getKey_merge_scalar rs k hk

theorem C5_scalar_first_truthy_wins_witness :
    getKey (merge_chunk_results exPPO) "plan_type" =
      some ((firstTruthy exPPO "plan_type").getD .null) ∧
    (firstTruthy exPPO "plan_type").getD .null = .str "PPO" :=
  ⟨C5_scalar_first_truthy_wins exPPO "plan_type" (by decide), rfl⟩

/-- C6: nested-object fields accumulate sub-keys across chunks; for two
non-error chunk results holding dicts `d1`, `d2` under a nested key, the
merged dict contains exactly the union of the sub-keys, and on a sub-key
the later chunk's value wins while a sub-key present only in the earlier
chunk keeps the earlier value (overwriting happens only on collision). -/
theorem C6_nested_accumulate (r1 r2 d1 d2 : Obj) (k s : String)
    (hk : k ∈ nestedKeys)
    (he1 : hasKey r1 "error" = false) (he2 : hasKey r2 "error" = false)
    (h1 : getKey r1 k = some (.dict d1)) (h2 : getKey r2 k = some (.dict d2))
    (hnd1 : (d1.map Prod.fst).Nodup) (hnd2 : (d2.map Prod.fst).Nodup) :
    hasKey (asDict (getKey (merge_chunk_results [r1, r2]) k)) s =
      (hasKey d1 s || hasKey d2 s) ∧
    getKey (asDict (getKey (merge_chunk_results [r1, r2]) k)) s =
      (getKey d2 s).or (getKey d1 s) := by
  obtain ⟨hs, hkr, hai⟩ := nested_key_props k hk
  have hinit : getKey initMerged k = some (.dict []) := by
    fin_cases hk <;> rfl
  have hm1 : getKey (mergeOne initMerged r1) k =
      some (.dict (dictUpdate [] d1)) :=
    getKey_mergeOne_nested initMerged r1 k hk [] d1 hinit he1 h1
  have hm2 : getKey (mergeOne (mergeOne initMerged r1) r2) k =
      some (.dict (dictUpdate (dictUpdate [] d1) d2)) :=
    getKey_mergeOne_nested _ r2 k hk _ d2 hm1 he2 h2
  have hm : getKey (merge_chunk_results [r1, r2]) k =
      some (.dict (dictUpdate (dictUpdate [] d1) d2)) := by
    unfold merge_chunk_results
    rw [getKey_dedupKeyReq_ne _ k hkr]
    simpa [List.foldl_cons, List.foldl_nil] using hm2
  rw [hm]
  constructor
  · show hasKey (dictUpdate (dictUpdate [] d1) d2) s = _
    rw [hasKey_dictUpdate, hasKey_dictUpdate]
    simp [hasKey]
  · show getKey (dictUpdate (dictUpdate [] d1) d2) s = _
    rw [getKey_dictUpdate _ _ _ hnd2, getKey_dictUpdate _ _ _ hnd1]
    cases getKey d2 s <;> cases getKey d1 s <;> rfl

theorem C6_nested_accumulate_witness :
    (hasKey (asDict (getKey (merge_chunk_results [covA, covB])
        "coverage_details")) "copay" =
      (hasKey [("deductible", JVal.str "$500")] "copay" ||
        hasKey [("copay", JVal.str "$20")] "copay") ∧
    getKey (asDict (getKey (merge_chunk_results [covA, covB])
        "coverage_details")) "copay" =
      (getKey [("copay", JVal.str "$20")] "copay").or
        (getKey [("deductible", JVal.str "$500")] "copay")) ∧
    getKey (asDict (getKey (merge_chunk_results [covA, covB])
        "coverage_details")) "deductible" = some (.str "$500") ∧
    getKey (asDict (getKey (merge_chunk_results [covA, covB])
        "coverage_details")) "copay" = some (.str "$20") :=
  ⟨C6_nested_accumulate covA covB [("deductible", JVal.str "$500")]
      [("copay", JVal.str "$20")] "coverage_details" "copay" (by decide)
      rfl rfl rfl rfl (by decide) (by decide),
    rfl, rfl⟩

/-- C7: a chunk result carrying an error marker contributes nothing to the
merge — merging with it in front yields exactly the merge without it. -/
theorem C7_error_record_no_contribution (err : Obj) (rs : List Obj)
    (h : hasKey err "error" = true) :
    merge_chunk_results (err :: rs) = merge_chunk_results rs := by
  have hskip : mergeOne initMerged err = initMerged := by
    unfold mergeOne
    rw [if_pos h]
  unfold merge_chunk_results
  rw [List.foldl_cons, hskip]

theorem C7_error_record_no_contribution_witness :
    merge_chunk_results [errRec, planX] = merge_chunk_results [planX] ∧
    getKey (merge_chunk_results [errRec, planX]) "plan_name" =
      some (.str "X") :=
  ⟨C7_error_record_no_contribution errRec [planX] rfl, rfl⟩

/-- C8: merging `[A, B, C]` in one pass gives the same scalar field values
as merging `[A]` and then folding the merged result with `B` and then with
`C`. -/
theorem C8_scalar_assoc (A B C : Obj) (k : String) (hk : k ∈ scalarKeys) :
    getKey (merge_chunk_results [A, B, C]) k =
      getKey (merge_chunk_results
        [merge_chunk_results [merge_chunk_results [A], B], C]) k := by
  rw [getKey_merge_scalar _ k hk, getKey_merge_scalar _ k hk]
  suffices h : firstTruthy [A, B, C] k =
      firstTruthy [merge_chunk_results [merge_chunk_results [A], B], C] k by
    rw [h]
  have hM1 : truthyVal k (merge_chunk_results [A]) = firstTruthy [A] k :=
    truthyVal_merge [A] k hk
  have hM2 : truthyVal k (merge_chunk_results [merge_chunk_results [A], B]) =
      firstTruthy [merge_chunk_results [A], B] k :=
    truthyVal_merge _ k hk
  cases hA : truthyVal k A with
  | some v =>
      have l2 : firstTruthy [A] k = some v :=
        firstTruthy_cons_some _ _ _ _ hA
      have l3 : truthyVal k (merge_chunk_results [A]) = some v := by
        rw [hM1, l2]
      have l4 : firstTruthy [merge_chunk_results [A], B] k = some v :=
        firstTruthy_cons_some _ _ _ _ l3
      have l5 : truthyVal k
          (merge_chunk_results [merge_chunk_results [A], B]) = some v := by
        rw [hM2, l4]
      rw [firstTruthy_cons_some _ _ _ _ hA, firstTruthy_cons_some _ _ _ _ l5]
  | none =>
      have l2 : firstTruthy [A] k = none := by
        rw [firstTruthy_cons_none _ _ _ hA]
        rfl
      have l3 : truthyVal k (merge_chunk_results [A]) = none := by
        rw [hM1, l2]
      have l4 : firstTruthy [merge_chunk_results [A], B] k =
          firstTruthy [B] k := firstTruthy_cons_none _ _ _ l3
      rw [firstTruthy_cons_none _ _ _ hA]
      cases hB : truthyVal k B with
      | some w =>
          have l6 : firstTruthy [B] k = some w :=
            firstTruthy_cons_some _ _ _ _ hB
          have l7 : truthyVal k
              (merge_chunk_results [merge_chunk_results [A], B]) = some w := by
            rw [hM2, l4, l6]
          rw [firstTruthy_cons_some _ _ _ _ hB,
              firstTruthy_cons_some _ _ _ _ l7]
      | none =>
          have l6 : firstTruthy [B] k = none := by
            rw [firstTruthy_cons_none _ _ _ hB]
            rfl
          have l7 : truthyVal k
              (merge_chunk_results [merge_chunk_results [A], B]) = none := by
            rw [hM2, l4, l6]
          rw [firstTruthy_cons_none _ _ _ hB,
              firstTruthy_cons_none _ _ _ l7]

theorem C8_scalar_assoc_witness :
    getKey (merge_chunk_results [pA, pB, pC]) "plan_type" =
      getKey (merge_chunk_results
        [merge_chunk_results [merge_chunk_results [pA], pB], pC])
        "plan_type" ∧
    getKey (merge_chunk_results [pA, pB, pC]) "plan_type" =
      some (.str "PPO") :=
  ⟨C8_scalar_assoc pA pB pC "plan_type" (by decide), rfl⟩

/-- C10: a scalar field whose reported value is falsy (empty string, 0,
empty list, False) never sets the merged scalar — the record contributes
nothing to that field, so a later chunk's truthy value wins. -/
theorem C10_falsy_scalar_never_sets (r : Obj) (rs : List Obj) (k : String)
    (v : JVal) (hk : k ∈ scalarKeys) (hv : getKey r k = some v)
    (hf : truthy v = false) :
    getKey (merge_chunk_results (r :: rs)) k =
      getKey (merge_chunk_results rs) k := by
  rw [getKey_merge_scalar _ k hk, getKey_merge_scalar _ k hk]
  suffices h : firstTruthy (r :: rs) k = firstTruthy rs k by rw [h]
  apply firstTruthy_cons_none
  unfold truthyVal
  split
  · rfl
  · rw [hv]
    simp [hf]

theorem C10_falsy_scalar_never_sets_witness :
    getKey (merge_chunk_results [emptyName, goldName]) "plan_name" =
      getKey (merge_chunk_results [goldName]) "plan_name" ∧
    getKey (merge_chunk_results [emptyName, goldName]) "plan_name" =
      some (.str "Gold") :=
  ⟨C10_falsy_scalar_never_sets emptyName [goldName] "plan_name" (.str "")
      (by decide) rfl rfl, rfl⟩

/-- C9: a text whose length does not exceed the configured maximum chunk
size is returned unchanged as a single chunk; instantiated at the empty
input this yields one chunk equal to the empty string. -/
theorem C9_small_text_single_chunk (text : PyStr) (max_chars : Nat)
    (h : text.length ≤ max_chars) : chunk_text text max_chars = [text] := by
  simp [chunk_text, h]

theorem C9_small_text_single_chunk_witness :
    chunk_text [] 20000 = [([] : PyStr)] :=
  C9_small_text_single_chunk [] 20000 (by decide)

/-- C3 (counterexample): the claim "no chunk ever exceeds the configured
maximum" fails on the code: a word is never split, so a single
whitespace-free word longer than the maximum becomes one oversized chunk —
chunking `"abcdef"` with maximum 3 yields the single chunk `"abcdef "` of
length 7. -/
theorem C3_counterexample :
    chunk_text "abcdef".data 3 = ["abcdef ".data] ∧
    ("abcdef ".data).length = 7 ∧ ¬ ("abcdef ".data).length ≤ 3 :=
  ⟨by decide, by decide, by decide⟩

/-- C3 (amended): no produced chunk exceeds the configured maximum,
provided every whitespace-delimited word of every oversized page text fits
within the maximum together with its trailing space (length + 1 ≤ max);
the force-split packs words greedily and never splits inside a word, so
only a single word longer than max − 1 can break the bound. -/
theorem C3_chunk_length_bounded (text : PyStr) (max_chars : Nat)
    (hw : ∀ p ∈ splitPages text,
      max_chars < (pageTextOf ((splitPages text).headD []) p).length →
      ∀ w ∈ pyWords (pageTextOf ((splitPages text).headD []) p),
        w.length + 1 ≤ max_chars) :
    ∀ c ∈ chunk_text text max_chars, c.length ≤ max_chars := by
  intro c hc
  by_cases hsmall : text.length ≤ max_chars
  · simp only [chunk_text, hsmall, if_true, List.mem_singleton] at hc
    rw [hc]
    exact hsmall
  · simp only [chunk_text, hsmall, if_false] at hc
    have hloop := chunkLoop_le max_chars ((splitPages text).headD [])
      (splitPages text) [] [] (by simp) (by simp) hw
    split at hc
    · rcases List.mem_append.mp hc with h | h
      · exact hloop.1 c h
      · rw [List.mem_singleton.mp h]
        exact hloop.2
    · exact hloop.1 c hc

theorem C3_chunk_length_bounded_witness :
    (∀ p ∈ splitPages "ab cd ef".data,
      4 < (pageTextOf ((splitPages "ab cd ef".data).headD []) p).length →
      ∀ w ∈ pyWords (pageTextOf ((splitPages "ab cd ef".data).headD []) p),
        w.length + 1 ≤ 4) ∧
    ∀ c ∈ chunk_text "ab cd ef".data 4, c.length ≤ 4 :=
  ⟨by decide, C3_chunk_length_bounded "ab cd ef".data 4 (by decide)⟩

/-- C4 (counterexample): the claim "concatenating the chunks reproduces the
original text" fails on the code: the split pieces are compared *by value*
with the first piece when re-attaching the page marker, so a later page
whose text equals the first piece loses its marker — chunking
`"ab--- Pageab"` with maximum 11 yields the single chunk `"abab"`, losing
the marker. -/
theorem C4_counterexample :
    (chunk_text "ab--- Pageab".data 11).flatten = "abab".data ∧
    ¬ "abab".data = "ab--- Pageab".data :=
  ⟨by decide, by decide⟩

/-- C4 (amended): concatenating the chunks reproduces the original text
provided no split piece is blank (blank pieces are skipped by the loop), no
later piece equals the first piece by value (the marker re-attachment
compares values), and no page text exceeds the maximum (the force-split
rewrites whitespace). -/
theorem C4_flatten_chunks_eq_text (text : PyStr) (max_chars : Nat)
    (h1 : ∀ p ∈ splitPages text, isBlank p = false)
    (h2 : ∀ p ∈ (splitPages text).tail, p ≠ (splitPages text).headD [])
    (h3 : ∀ p ∈ splitPages text,
      (pageTextOf ((splitPages text).headD []) p).length ≤ max_chars) :
    (chunk_text text max_chars).flatten = text := by
  by_cases hsmall : text.length ≤ max_chars
  · simp [chunk_text, hsmall]
  · simp only [chunk_text, hsmall, if_false]
    obtain ⟨p0, ps, hps⟩ := List.exists_cons_of_ne_nil (splitPages_ne_nil text)
    rw [hps] at h1 h2 h3 ⊢
    simp only [List.headD_cons, List.tail_cons] at h1 h2 h3 ⊢
    have hflat := chunkLoop_flatten max_chars p0 (p0 :: ps) [] []
      (fun p hp => ⟨h1 p hp, h3 p hp⟩)
    simp only [List.flatten_nil, List.nil_append] at hflat
    have hmapflat : ((p0 :: ps).map (pageTextOf p0)).flatten = text := by
      have e0 : pageTextOf p0 p0 = p0 := by simp [pageTextOf]
      have emap : ps.map (pageTextOf p0) =
          ps.map (fun p => pageMarker ++ p) :=
        List.map_congr_left (fun p hp => by simp [pageTextOf, h2 p hp])
      rw [List.map_cons, e0, emap, List.flatten_cons,
          ← joinSep_eq_flatten_map pageMarker p0 ps, ← hps,
          joinSep_splitPages]
    split
    · rw [List.flatten_append]
      simp only [List.flatten_cons, List.flatten_nil, List.append_nil]
      rw [hflat]
      exact hmapflat
    · rename_i hemp
      have h2e : (chunkLoop max_chars p0 (p0 :: ps) [] []).2 = [] := by
        rcases hL2 : (chunkLoop max_chars p0 (p0 :: ps) [] []).2 with _ | ⟨c, cs⟩
        · rfl
        · rw [hL2] at hemp
          simp at hemp
      rw [h2e, List.append_nil] at hflat
      rw [hflat]
      exact hmapflat

theorem C4_flatten_chunks_eq_text_witness :
    (∀ p ∈ splitPages "p1xy--- Page 2 yz--- Page 3 qq".data,
        isBlank p = false) ∧
    (∀ p ∈ (splitPages "p1xy--- Page 2 yz--- Page 3 qq".data).tail,
        p ≠ (splitPages "p1xy--- Page 2 yz--- Page 3 qq".data).headD []) ∧
    (∀ p ∈ splitPages "p1xy--- Page 2 yz--- Page 3 qq".data,
        (pageTextOf
          ((splitPages "p1xy--- Page 2 yz--- Page 3 qq".data).headD [])
          p).length ≤ 14) ∧
    (chunk_text "p1xy--- Page 2 yz--- Page 3 qq".data 14).flatten =
      "p1xy--- Page 2 yz--- Page 3 qq".data :=
  ⟨by decide, by decide, by decide,
    C4_flatten_chunks_eq_text "p1xy--- Page 2 yz--- Page 3 qq".data 14
      (by decide) (by decide) (by decide)⟩

/-- C1 (evaluation at the failing input): the `try/except Exception` inside
`extract_chunk_to_json` converts every service failure into a *normal
return* of the error-marker record, so the tenacity retry wrapper — which
retries only on a raised exception — never fires: on a service failing
attempts 1 and 2 and succeeding on attempt 3, the decorated call returns
the error marker of attempt 1 instead of retrying, although the retry
wrapper alone, fed the raw outcomes, would return the successful record of
attempt 3. -/
theorem C1_retry_never_fires :
    extract_chunk_to_json svcFailTwice 1 =
      .ok [("error", .str "Rate limit exceeded"), ("chunk", .int 1)] ∧
    tenacityRetry 3 svcFailTwice =
      .ok [("plan_name", .str "Gold PPO")] :=
  ⟨rfl, rfl⟩

/-- Helper: a document whose file cannot be read makes `extract_to_json`
*return normally* with an error-marked object (source lines 222-223), not
raise. -/
theorem extract_to_json_read_fail (env : Env) (pdf_path : String)
    (h : env.pdfPages pdf_path = none) :
    extract_to_json env pdf_path =
      .ok [("error", .str "Failed to extract text from PDF"),
           ("file", .str pdf_path)] := by
  unfold extract_to_json extract_text_from_pdf
  rw [h]
  rfl

/-- C2 (counterexample): the claim "a read-failed document is recorded as a
batch failure (`total=3, successful=2, failed=1`, with a non-null error and
null output for document 2)" fails on the code: the read failure is
converted into an error dict returned normally, which `batch_process`
counts as a success — the summary reports `successful=3, failed=0` and
document 2's entry has status `"success"`, no error and a non-null
output. -/
theorem C2_counterexample :
    (batch_process env3 ["docs/a.pdf", "docs/b.pdf", "docs/c.pdf"]
        "out").total = 3 ∧
    (batch_process env3 ["docs/a.pdf", "docs/b.pdf", "docs/c.pdf"]
        "out").successful = 3 ∧
    (batch_process env3 ["docs/a.pdf", "docs/b.pdf", "docs/c.pdf"]
        "out").failed = 0 ∧
    (batch_process env3 ["docs/a.pdf", "docs/b.pdf", "docs/c.pdf"]
        "out").files.map (fun f => (f.input, f.status, f.error,
          f.output.isSome)) =
      [("docs/a.pdf", "success", none, true),
       ("docs/b.pdf", "success", none, true),
       ("docs/c.pdf", "success", none, true)] :=
  ⟨rfl, rfl, rfl, rfl⟩

/-- C2 (amended): a document whose file cannot be read does not abort the
batch, but it is recorded as a *success* entry, not a failure:
`extract_to_json` converts the read failure into an error-marked object
returned normally, so in a batch of three documents where document 2
suffers a read failure and the other two succeed, the summary reports
`total=3, successful=3, failed=0` and document 2's entry has status
`"success"`, no error, and a non-null output path. -/
theorem C2_read_failure_counted_success (env : Env) (p1 p2 p3 dir : String)
    (h2 : env.pdfPages p2 = none)
    (h1 : (extract_to_json env p1).isOk = true)
    (h3 : (extract_to_json env p3).isOk = true) :
    (batch_process env [p1, p2, p3] dir).total = 3 ∧
    (batch_process env [p1, p2, p3] dir).successful = 3 ∧
    (batch_process env [p1, p2, p3] dir).failed = 0 ∧
    (batch_process env [p1, p2, p3] dir).files.map
        (fun f => (f.input, f.status, f.error, f.output.isSome)) =
      [(p1, "success", none, true), (p2, "success", none, true),
       (p3, "success", none, true)] ∧
    extract_to_json env p2 =
      .ok [("error", .str "Failed to extract text from PDF"),
           ("file", .str p2)] := by
  obtain ⟨r1, hr1⟩ : ∃ r, extract_to_json env p1 = .ok r := by
    cases hx : extract_to_json env p1 with
    | error e =>
        rw [hx] at h1
        exact absurd h1 (by simp [Except.isOk, Except.toBool])
    | ok r => exact ⟨r, rfl⟩
  obtain ⟨r3, hr3⟩ : ∃ r, extract_to_json env p3 = .ok r := by
    cases hx : extract_to_json env p3 with
    | error e =>
        rw [hx] at h3
        exact absurd h3 (by simp [Except.isOk, Except.toBool])
    | ok r => exact ⟨r, rfl⟩
  have hr2 := extract_to_json_read_fail env p2 h2
  refine ⟨?_, ?_, ?_, ?_, hr2⟩ <;>
    simp [batch_process, hr1, hr2, hr3]

theorem C2_read_failure_counted_success_witness :
    env3.pdfPages "docs/b.pdf" = none ∧
    ((batch_process env3 ["docs/a.pdf", "docs/b.pdf", "docs/c.pdf"]
        "out").total = 3 ∧
    (batch_process env3 ["docs/a.pdf", "docs/b.pdf", "docs/c.pdf"]
        "out").successful = 3 ∧
    (batch_process env3 ["docs/a.pdf", "docs/b.pdf", "docs/c.pdf"]
        "out").failed = 0 ∧
    (batch_process env3 ["docs/a.pdf", "docs/b.pdf", "docs/c.pdf"]
        "out").files.map (fun f => (f.input, f.status, f.error,
          f.output.isSome)) =
      [("docs/a.pdf", "success", none, true),
       ("docs/b.pdf", "success", none, true),
       ("docs/c.pdf", "success", none, true)] ∧
    extract_to_json env3 "docs/b.pdf" =
      .ok [("error", .str "Failed to extract text from PDF"),
           ("file", .str "docs/b.pdf")]) :=
  ⟨rfl, C2_read_failure_counted_success env3 "docs/a.pdf" "docs/b.pdf"
      "docs/c.pdf" "out" rfl rfl rfl⟩
